import Mathlib

/-!
Shallow embedding of the `minimp4` Rust crate (`src/packages/minimp4/src/lib.rs`)
and of the muxing engine it wraps.  Pure Rust-side code (status-code
conversions, the write callback, the session struct and its methods) is
translated directly from the source.  The `writer` module and the native
`minimp4_sys` engine are not part of the source tree; where a definition
models them its doc comment starts with "Modelled from the spec:" and follows
the specification's words.
-/

namespace Minimp4

/-! ### Native status codes

The numeric values come from the wrapped native header (`minimp4_sys`, not in
the source tree); they are the standard minimp4 status enum values.  Only
their pairwise distinctness matters to the conversion code. -/

def MP4E_STATUS_OK : Int := 0

def MP4E_STATUS_BAD_ARGUMENTS : Int := -1

def MP4E_STATUS_NO_MEMORY : Int := -2

def MP4E_STATUS_FILE_WRITE_ERROR : Int := -3

def MP4E_STATUS_ONLY_ONE_DSI_ALLOWED : Int := -4

/-- `Minimp4Error` from src/lib.rs lines 53-60: the crate's error enum.  It
has exactly these four variants (note: no `SessionClosed`, no
`InvalidDuration`). -/
inductive Minimp4Error
  | BadArguments
  | NoMemory
  | FileWriteError
  | OnlyOneDsiAllowed
deriving DecidableEq, Repr

/-- The `#[repr(i32)]` discriminant of each `Minimp4Error` variant
(src/lib.rs lines 54-60). -/
def Minimp4Error.discriminant : Minimp4Error → Int
  | .BadArguments => MP4E_STATUS_BAD_ARGUMENTS
  | .NoMemory => MP4E_STATUS_NO_MEMORY
  | .FileWriteError => MP4E_STATUS_FILE_WRITE_ERROR
  | .OnlyOneDsiAllowed => MP4E_STATUS_ONLY_ONE_DSI_ALLOWED

/-- The variant name as printed by `#[derive(Debug)]` (src/lib.rs line 53). -/
def Minimp4Error.name : Minimp4Error → String
  | .BadArguments => "BadArguments"
  | .NoMemory => "NoMemory"
  | .FileWriteError => "FileWriteError"
  | .OnlyOneDsiAllowed => "OnlyOneDsiAllowed"

/-- `TryFrom<i32> for Minimp4Error` (src/lib.rs lines 62-73): a match on the
four native error constants, any other value is `Err(())`. -/
def Minimp4Error.tryFrom (value : Int) : Except Unit Minimp4Error :=
  if value = MP4E_STATUS_BAD_ARGUMENTS then .ok .BadArguments
  else if value = MP4E_STATUS_NO_MEMORY then .ok .NoMemory
  else if value = MP4E_STATUS_FILE_WRITE_ERROR then .ok .FileWriteError
  else if value = MP4E_STATUS_ONLY_ONE_DSI_ALLOWED then .ok .OnlyOneDsiAllowed
  else .error ()

/-- `Minimp4ReturnCode` from src/lib.rs lines 35-40: `Ok` or `Err` wrapping a
`Minimp4Error`. -/
inductive Minimp4ReturnCode
  | Ok
  | Err (e : Minimp4Error)
deriving DecidableEq, Repr

/-- `TryFrom<i32> for Minimp4ReturnCode` (src/lib.rs lines 42-51):
`MP4E_STATUS_OK` maps to `Ok`, everything else goes through
`Minimp4Error::try_from` (the `?` operator propagates its `Err(())`). -/
def Minimp4ReturnCode.tryFrom (value : Int) : Except Unit Minimp4ReturnCode :=
  if value = MP4E_STATUS_OK then .ok .Ok
  else (Minimp4Error.tryFrom value).map .Err

/-- `Minimp4Result<T> = Result<T, Minimp4Error>` (src/lib.rs line 75). -/
abbrev Minimp4Result (T : Type) := Except Minimp4Error T

/-- `From<Minimp4ReturnCode> for Minimp4Result<()>` (src/lib.rs lines 77-84). -/
def minimp4ResultOfReturnCode : Minimp4ReturnCode → Minimp4Result Unit
  | .Err e => .error e
  | .Ok => .ok ()

/-! ### The write callback (src/lib.rs lines 163-174)

`Mp4Muxer::write_data` seeks the sink to the requested offset (the seek is
`unwrap`ped and modelled as succeeding; it is outside the claims) and then
calls the sink's `write`, turning an `Err` into `0` bytes written via
`unwrap_or(0)`.  `Mp4Muxer::write` is the `extern "C"` callback handed to
`MP4E_open`: it reports failure (nonzero) exactly when the byte count from
`write_data` differs from the requested size. -/

/-- An opaque I/O error value, standing for `std::io::Error`. -/
inductive IoError
  | ioErr
deriving DecidableEq, Repr

/-- `Mp4Muxer::write_data` (src/lib.rs lines 163-166), as a function of the
underlying sink write's outcome for the given buffer:
`self.writer.write(buf).unwrap_or(0)`. -/
def Mp4Muxer.write_data (writeResult : Except IoError Nat) : Nat :=
  match writeResult with
  | .ok n => n
  | .error _ => 0

/-- `Mp4Muxer::write` (src/lib.rs lines 168-174), the native write callback:
`(self.write_data(offset, buf) != size) as i32`. -/
def Mp4Muxer.write (writeResult : Except IoError Nat) (size : Nat) : Int :=
  if Mp4Muxer.write_data writeResult ≠ size then 1 else 0

/-! ### The muxing engine

The `writer` module and the native engine behind the `MP4E_mux_t` and
`mp4_h26x_writer_t` pointers are not in the source tree; the definitions in
this section model them from the specification. -/

/-- Modelled from the spec: one Sample Table Entry (spec section 3) — byte
size, duration in track time-scale units, and the sync-sample (keyframe)
flag. -/
structure Sample where
  size : Nat
  duration : Nat
  isSync : Bool
deriving DecidableEq, Repr

/-- Modelled from the spec: a NAL unit of the Annex-B stream after start-code
scanning, classified as in spec section 4.1: parameter sets (SPS/PPS) versus
keyframe-indicating (IDR) and regular slices.  One slice NAL stands for one
access unit (frame) in this model. -/
inductive NalUnit
  | sps (payload : List Nat)
  | pps (payload : List Nat)
  | idr (payload : List Nat)
  | nonIdr (payload : List Nat)
deriving DecidableEq, Repr

/-- The raw payload bytes of a NAL unit. -/
def NalUnit.payload : NalUnit → List Nat
  | .sps p => p
  | .pps p => p
  | .idr p => p
  | .nonIdr p => p

/-- Whether the NAL unit is a slice (a frame), as opposed to a parameter
set. -/
def NalUnit.isSlice : NalUnit → Bool
  | .idr _ => true
  | .nonIdr _ => true
  | .sps _ => false
  | .pps _ => false

/-- Whether the NAL unit is an IDR (keyframe) slice. -/
def NalUnit.isIdr : NalUnit → Bool
  | .idr _ => true
  | _ => false

/-- Number of frames in a NAL-unit sequence: slice units only; parameter-set
units are never counted as frames (spec section 4.1). -/
def frameCount (units : List NalUnit) : Nat :=
  (units.filter NalUnit.isSlice).length

/-- Modelled from the spec: parameter-set deduplication is "a small memoized
set keyed by raw byte content" (spec section 9) — insert the value only if it
is not already present. -/
def insertPs (set : List (List Nat)) (p : List Nat) : List (List Nat) :=
  if p ∈ set then set else set ++ [p]

/-- The track time scale, in ticks per second.  The public API fixes it at
90 kHz (the `duration_90KHz` parameter of `write_frame_with_duration`,
src/lib.rs line 145). -/
def time_scale : Nat := 90000

/-- Modelled from the spec: the engine state behind the `MP4E_mux_t` and
`mp4_h26x_writer_t` pointers — codec parameters from `mp4_h26x_write_init`,
the memoized parameter-set sets, the sample table, the comment entries, and
the timing model's fractional-remainder accumulator (spec sections 3, 4.1,
4.2). -/
structure EngineState where
  width : Int
  height : Int
  isHevc : Bool
  spsSet : List (List Nat)
  ppsSet : List (List Nat)
  samples : List Sample
  comments : List String
  timingAcc : Nat
deriving DecidableEq, Repr

/-- Modelled from the spec: `MP4E_open` creates a fresh engine with no
tracks, samples, parameter sets or comments (src/lib.rs line 105 calls it
from `init_video`). -/
def MP4E_open : EngineState :=
  { width := 0, height := 0, isHevc := false, spsSet := [], ppsSet := [],
    samples := [], comments := [], timingAcc := 0 }

/-- Modelled from the spec: `mp4_h26x_write_init` records width, height and
the codec choice on the engine (src/lib.rs lines 107-113). -/
def mp4_h26x_write_init (e : EngineState) (width height : Int) (isHevc : Bool) :
    EngineState :=
  { e with width := width, height := height, isHevc := isHevc }

/-- Modelled from the spec: `MP4E_set_text_comment` "writes a single
free-text comment box; repeated calls append additional comment entries
rather than replacing" (spec section 6). -/
def MP4E_set_text_comment (e : EngineState) (comment : String) : EngineState :=
  { e with comments := e.comments ++ [comment] }

/-- Modelled from the spec: one step of the fps-driven muxing pipeline (spec
sections 4.1 and 4.2).  Parameter sets are memoized into their set and are
not counted as frames; each slice becomes one sample whose duration comes
from the timing model: `time_scale / fps` truncated, with the fractional
remainder accumulated and redistributed over subsequent frames. -/
def stepFps (fps : Nat) (e : EngineState) (u : NalUnit) : EngineState :=
  match u with
  | .sps p => { e with spsSet := insertPs e.spsSet p }
  | .pps p => { e with ppsSet := insertPs e.ppsSet p }
  | .idr p =>
      let total := e.timingAcc + time_scale
      { e with samples := e.samples ++ [⟨p.length, total / fps, true⟩],
               timingAcc := total % fps }
  | .nonIdr p =>
      let total := e.timingAcc + time_scale
      { e with samples := e.samples ++ [⟨p.length, total / fps, false⟩],
               timingAcc := total % fps }

/-- Modelled from the spec: `write_mp4` from the missing `writer` module —
process the buffer's NAL units with fps-derived durations.  It reports
status through the crate's `Minimp4Result` (src/lib.rs line 139-143); the
modelled pipeline itself always succeeds. -/
def write_mp4 (mp4wr : EngineState) (fps : Nat) (data : List NalUnit) :
    EngineState × Minimp4Result Unit :=
  (data.foldl (stepFps fps) mp4wr, .ok ())

/-- Modelled from the spec: one step of the explicit-duration pipeline — the
caller-supplied duration "is used verbatim and the accumulator is bypassed"
(spec section 4.2).  The crate's error type has no `InvalidDuration` variant
(src/lib.rs lines 53-60), so no duration rejection is representable at this
interface and none occurs. -/
def stepDur (duration : Nat) (e : EngineState) (u : NalUnit) : EngineState :=
  match u with
  | .sps p => { e with spsSet := insertPs e.spsSet p }
  | .pps p => { e with ppsSet := insertPs e.ppsSet p }
  | .idr p => { e with samples := e.samples ++ [⟨p.length, duration, true⟩] }
  | .nonIdr p => { e with samples := e.samples ++ [⟨p.length, duration, false⟩] }

/-- Modelled from the spec: `write_mp4_frame_with_duration` from the missing
`writer` module — process the buffer's NAL units, recording the explicit
duration verbatim on every slice. -/
def write_mp4_frame_with_duration (mp4wr : EngineState) (duration : Nat)
    (data : List NalUnit) : EngineState × Minimp4Result Unit :=
  (data.foldl (stepDur duration) mp4wr, .ok ())

/-! ### The session struct `Mp4Muxer<W>` (src/lib.rs lines 26-175)

The struct owns the sink `writer`, a `str_buffer` of the `CString`s it keeps
alive (track names and comments), and the engine reached through its two raw
pointers.  The model covers a session on which `init_video` has been called
(the source defers `MP4E_open` to the first `init_video`; pre-init writes
dereference uninitialized memory and are outside the model). -/

structure Mp4Muxer (W : Type) where
  writer : W
  strBuffer : List String
  engine : EngineState
deriving DecidableEq, Repr

/-- `Mp4Muxer::new` followed by `Mp4Muxer::init_video` (src/lib.rs lines
87-115): push the track name onto `str_buffer`, open the engine, record the
codec parameters. -/
def Mp4Muxer.new_init {W : Type} (writer : W) (width height : Int)
    (isHevc : Bool) (trackName : String) : Mp4Muxer W :=
  { writer := writer, strBuffer := [trackName],
    engine := mp4_h26x_write_init MP4E_open width height isHevc }

/-- `Mp4Muxer::write_video_with_fps` (src/lib.rs lines 139-143): forward the
buffer and fps to `write_mp4`. -/
def Mp4Muxer.write_video_with_fps {W : Type} (m : Mp4Muxer W)
    (data : List NalUnit) (fps : Nat) : Mp4Muxer W × Minimp4Result Unit :=
  let r := write_mp4 m.engine fps data
  ({ m with engine := r.1 }, r.2)

/-- `Mp4Muxer::write_video` (src/lib.rs lines 126-128):
`self.write_video_with_fps(data, 60)`. -/
def Mp4Muxer.write_video {W : Type} (m : Mp4Muxer W) (data : List NalUnit) :
    Mp4Muxer W × Minimp4Result Unit :=
  m.write_video_with_fps data 60

/-- `Mp4Muxer::write_frame_with_duration` (src/lib.rs lines 145-148):
forward the buffer and the 90 kHz duration to
`write_mp4_frame_with_duration`. -/
def Mp4Muxer.write_frame_with_duration {W : Type} (m : Mp4Muxer W)
    (data : List NalUnit) (duration90KHz : Nat) :
    Mp4Muxer W × Minimp4Result Unit :=
  let r := write_mp4_frame_with_duration m.engine duration90KHz data
  ({ m with engine := r.1 }, r.2)

/-- `Mp4Muxer::write_comment` (src/lib.rs lines 150-155): push the comment
onto `str_buffer` and hand it to `MP4E_set_text_comment`.  The Rust method
returns `()`: it has no error path. -/
def Mp4Muxer.write_comment {W : Type} (m : Mp4Muxer W) (comment : String) :
    Mp4Muxer W :=
  { m with strBuffer := m.strBuffer ++ [comment],
           engine := MP4E_set_text_comment m.engine comment }

/-- `Mp4Muxer::close` (src/lib.rs lines 156-161): call `MP4E_close` on the
engine and return `&self.writer`.  The method takes `&self` and mutates no
field of the session: the session state after `close` is the session state
before it.  The container `MP4E_close` emits into the sink is modelled
separately by `finalize`. -/
def Mp4Muxer.close {W : Type} (m : Mp4Muxer W) : Mp4Muxer W × W :=
  (m, m.writer)

/-! ### The finalizer (spec section 4.4) -/

/-- Modelled from the spec: a top-level box of the finished container, with
its payload length and its patched size field (8 header bytes plus the
payload). -/
structure Box where
  tag : String
  payloadLen : Nat
  size : Nat
deriving DecidableEq, Repr

/-- Modelled from the spec: the finished container — the standard box
sequence (file-type, movie, media-data; spec section 6) plus the track's
total duration, the sum of the per-sample durations (spec section 3). -/
structure Container where
  boxes : List Box
  duration : Nat
deriving DecidableEq, Repr

/-- Sum of the per-sample durations currently recorded in the engine's
sample table. -/
def sumDurations (e : EngineState) : Nat :=
  (e.samples.map Sample.duration).sum

/-- Modelled from the spec: the payload length of the media-data box is the
total byte size of the recorded samples. -/
def mdatPayloadLen (e : EngineState) : Nat :=
  (e.samples.map Sample.size).sum

/-- Modelled from the spec: the payload length of the movie box — fixed
headers plus the sample tables, the cached parameter sets and the comment
entries. -/
def moovPayloadLen (e : EngineState) : Nat :=
  108 + 16 * e.samples.length + (e.spsSet.map List.length).sum +
    (e.ppsSet.map List.length).sum + (e.comments.map String.length).sum

/-- Modelled from the spec: `MP4E_close`'s finalization (spec section 4.4) —
compute every box's final size (8 plus its payload length) and the track's
total duration.  `finalize` is a total function: closing a session always
produces a container, also when no frames were written. -/
def finalize (e : EngineState) : Container :=
  { boxes := [⟨"ftyp", 16, 24⟩,
              ⟨"moov", moovPayloadLen e, 8 + moovPayloadLen e⟩,
              ⟨"mdat", mdatPayloadLen e, 8 + mdatPayloadLen e⟩],
    duration := sumDurations e }

/-- A box is structurally valid when its finalized size field equals 8 plus
its payload length (spec section 3). -/
def boxValid (b : Box) : Bool :=
  b.size == 8 + b.payloadLen

/-- A container is structurally valid when it is non-empty and every box's
size field is correctly patched. -/
def containerValid (c : Container) : Bool :=
  !c.boxes.isEmpty && c.boxes.all boxValid

/-! ### Helper lemmas -/

theorem foldl_write_comment_comments {W : Type} :
    ∀ (cs : List String) (m : Mp4Muxer W),
      (cs.foldl Mp4Muxer.write_comment m).engine.comments = m.engine.comments ++ cs := by
  intro cs
  induction cs with
  | nil => intro m; simp
  | cons c cs ih =>
      intro m
      simp [List.foldl, ih, Mp4Muxer.write_comment, MP4E_set_text_comment]

theorem foldl_stepDur_samples (d : Nat) :
    ∀ (units : List NalUnit) (e : EngineState),
      (units.foldl (stepDur d) e).samples
        = e.samples ++ (units.filter NalUnit.isSlice).map
            (fun u => ⟨u.payload.length, d, u.isIdr⟩) := by
  intro units
  induction units with
  | nil => intro e; simp
  | cons u us ih =>
      intro e
      cases u <;>
        simp [stepDur, ih, NalUnit.isSlice, NalUnit.payload, NalUnit.isIdr,
          List.filter_cons]

/-- Rounded division of naturals: `roundDiv a b` is `a / b` rounded to the
nearest integer (halves rounding up). -/
def roundDiv (a b : Nat) : Nat :=
  (2 * a + b) / (2 * b)

theorem roundDiv_bounds (a b : Nat) (hb : 0 < b) :
    a / b ≤ roundDiv a b ∧ roundDiv a b ≤ a / b + 1 := by
  obtain ⟨q, r, hr, rfl⟩ : ∃ q r, r < b ∧ a = b * q + r :=
    ⟨a / b, a % b, Nat.mod_lt a hb, (Nat.div_add_mod a b).symm⟩
  have h2b : 0 < 2 * b := by omega
  have hdiv : (b * q + r) / b = q := by
    rw [Nat.mul_add_div hb, Nat.div_eq_of_lt hr, Nat.add_zero]
  have h1 : 2 * (b * q + r) + b = 2 * b * q + (2 * r + b) := by ring
  have hval : roundDiv (b * q + r) b = q + (2 * r + b) / (2 * b) := by
    rw [roundDiv, h1, Nat.mul_add_div h2b]
  have hsmall : (2 * r + b) / (2 * b) ≤ 1 := by
    have := (Nat.div_lt_iff_lt_mul h2b).mpr
      (show 2 * r + b < 2 * (2 * b) by omega)
    omega
  rw [hdiv, hval]
  exact ⟨Nat.le_add_right q _, Nat.add_le_add_left hsmall q⟩

theorem div_mod_step (x y b : Nat) (hb : 0 < b) :
    x / b + (x % b + y) / b = (x + y) / b
    ∧ (x % b + y) % b = (x + y) % b := by
  obtain ⟨q, r, hr, rfl⟩ : ∃ q r, r < b ∧ x = b * q + r :=
    ⟨x / b, x % b, Nat.mod_lt x hb, (Nat.div_add_mod x b).symm⟩
  have hdiv : (b * q + r) / b = q := by
    rw [Nat.mul_add_div hb, Nat.div_eq_of_lt hr, Nat.add_zero]
  have hmod : (b * q + r) % b = r := by
    rw [Nat.mul_add_mod, Nat.mod_eq_of_lt hr]
  have hxy : b * q + r + y = b * q + (r + y) := by ring
  rw [hdiv, hmod, hxy, Nat.mul_add_div hb, Nat.mul_add_mod]
  exact ⟨rfl, rfl⟩

theorem foldl_stepFps_timing (fps : Nat) (hfps : 0 < fps) :
    ∀ (units : List NalUnit) (e : EngineState) (n : Nat),
      sumDurations e = n * time_scale / fps →
      e.timingAcc = n * time_scale % fps →
      sumDurations (units.foldl (stepFps fps) e)
          = (n + frameCount units) * time_scale / fps
      ∧ (units.foldl (stepFps fps) e).timingAcc
          = (n + frameCount units) * time_scale % fps := by
  intro units
  induction units with
  | nil =>
      intro e n h1 h2
      simp only [List.foldl_nil, frameCount, List.filter_nil, List.length_nil,
        Nat.add_zero]
      exact ⟨h1, h2⟩
  | cons u us ih =>
      intro e n h1 h2
      cases u with
      | sps p =>
          have step := ih { e with spsSet := insertPs e.spsSet p } n
            (by simpa [sumDurations] using h1) (by simpa using h2)
          simpa [List.foldl_cons, stepFps, frameCount, List.filter_cons,
            NalUnit.isSlice] using step
      | pps p =>
          have step := ih { e with ppsSet := insertPs e.ppsSet p } n
            (by simpa [sumDurations] using h1) (by simpa using h2)
          simpa [List.foldl_cons, stepFps, frameCount, List.filter_cons,
            NalUnit.isSlice] using step
      | idr p =>
          have hs := div_mod_step (n * time_scale) time_scale fps hfps
          have h1' : sumDurations (stepFps fps e (.idr p))
              = (n + 1) * time_scale / fps := by
            simp only [stepFps, sumDurations, List.map_append, List.sum_append,
              List.map_cons, List.map_nil, List.sum_cons, List.sum_nil]
            rw [show (n + 1) * time_scale = n * time_scale + time_scale by ring]
            rw [← hs.1, ← h1, ← h2, sumDurations]
            omega
          have h2' : (stepFps fps e (.idr p)).timingAcc
              = (n + 1) * time_scale % fps := by
            simp only [stepFps]
            rw [show (n + 1) * time_scale = n * time_scale + time_scale by ring]
            rw [← hs.2, h2]
          have step := ih (stepFps fps e (.idr p)) (n + 1) h1' h2'
          have hfc : frameCount (NalUnit.idr p :: us) = frameCount us + 1 := by
            simp [frameCount, List.filter_cons, NalUnit.isSlice]
          rw [List.foldl_cons]
          rw [hfc, show n + (frameCount us + 1) = n + 1 + frameCount us by ring]
          exact step
      | nonIdr p =>
          have hs := div_mod_step (n * time_scale) time_scale fps hfps
          have h1' : sumDurations (stepFps fps e (.nonIdr p))
              = (n + 1) * time_scale / fps := by
            simp only [stepFps, sumDurations, List.map_append, List.sum_append,
              List.map_cons, List.map_nil, List.sum_cons, List.sum_nil]
            rw [show (n + 1) * time_scale = n * time_scale + time_scale by ring]
            rw [← hs.1, ← h1, ← h2, sumDurations]
            omega
          have h2' : (stepFps fps e (.nonIdr p)).timingAcc
              = (n + 1) * time_scale % fps := by
            simp only [stepFps]
            rw [show (n + 1) * time_scale = n * time_scale + time_scale by ring]
            rw [← hs.2, h2]
          have step := ih (stepFps fps e (.nonIdr p)) (n + 1) h1' h2'
          have hfc : frameCount (NalUnit.nonIdr p :: us) = frameCount us + 1 := by
            simp [frameCount, List.filter_cons, NalUnit.isSlice]
          rw [List.foldl_cons]
          rw [hfc, show n + (frameCount us + 1) = n + 1 + frameCount us by ring]
          exact step

theorem count_nodup :
    ∀ (l : List (List Nat)), l.Nodup → ∀ p, l.count p = if p ∈ l then 1 else 0 := by
  intro l
  induction l with
  | nil => intro _ p; simp
  | cons a l ih =>
      intro h p
      obtain ⟨ha, hl⟩ := List.nodup_cons.mp h
      by_cases hp : p = a
      · subst hp
        have hz : l.count p = 0 := List.count_eq_zero.mpr ha
        simp [List.count_cons, hz]
      · simp [List.count_cons, hp, ih hl p, List.mem_cons]

theorem insertPs_mem (s : List (List Nat)) (p q : List Nat) :
    q ∈ insertPs s p ↔ q ∈ s ∨ q = p := by
  unfold insertPs
  split_ifs with h
  · constructor
    · exact fun hq => Or.inl hq
    · rintro (hq | rfl)
      · exact hq
      · exact h
  · simp [List.mem_append]

theorem insertPs_nodup (s : List (List Nat)) (p : List Nat) (h : s.Nodup) :
    (insertPs s p).Nodup := by
  unfold insertPs
  split_ifs with hp
  · exact h
  · refine List.Nodup.append h (List.nodup_singleton p) ?_
    intro a ha hb
    rw [List.mem_singleton] at hb
    subst hb
    exact hp ha

theorem foldl_stepFps_sps (fps : Nat) :
    ∀ (units : List NalUnit) (e : EngineState),
      e.spsSet.Nodup →
      ((units.foldl (stepFps fps) e).spsSet.Nodup
      ∧ ∀ p, p ∈ (units.foldl (stepFps fps) e).spsSet ↔
          (NalUnit.sps p ∈ units ∨ p ∈ e.spsSet)) := by
  intro units
  induction units with
  | nil =>
      intro e h
      simpa using h
  | cons u us ih =>
      intro e h
      cases u with
      | sps q =>
          obtain ⟨h1, h2⟩ := ih { e with spsSet := insertPs e.spsSet q }
            (insertPs_nodup _ _ h)
          refine ⟨by simpa [stepFps] using h1, fun p => ?_⟩
          rw [List.foldl_cons]
          show p ∈ (us.foldl (stepFps fps) (stepFps fps e (.sps q))).spsSet ↔ _
          simp only [stepFps] at h2 ⊢
          rw [h2 p, insertPs_mem]
          simp only [List.mem_cons, NalUnit.sps.injEq]
          tauto
      | pps q =>
          obtain ⟨h1, h2⟩ := ih { e with ppsSet := insertPs e.ppsSet q } (by simpa using h)
          refine ⟨by simpa [stepFps] using h1, fun p => ?_⟩
          rw [List.foldl_cons]
          show p ∈ (us.foldl (stepFps fps) (stepFps fps e (.pps q))).spsSet ↔ _
          simp only [stepFps] at h2 ⊢
          rw [h2 p]
          simp
      | idr q =>
          obtain ⟨h1, h2⟩ := ih (stepFps fps e (.idr q)) (by simpa [stepFps] using h)
          refine ⟨h1, fun p => ?_⟩
          rw [List.foldl_cons, h2 p]
          simp [stepFps]
      | nonIdr q =>
          obtain ⟨h1, h2⟩ := ih (stepFps fps e (.nonIdr q)) (by simpa [stepFps] using h)
          refine ⟨h1, fun p => ?_⟩
          rw [List.foldl_cons, h2 p]
          simp [stepFps]

theorem foldl_stepFps_pps (fps : Nat) :
    ∀ (units : List NalUnit) (e : EngineState),
      e.ppsSet.Nodup →
      ((units.foldl (stepFps fps) e).ppsSet.Nodup
      ∧ ∀ p, p ∈ (units.foldl (stepFps fps) e).ppsSet ↔
          (NalUnit.pps p ∈ units ∨ p ∈ e.ppsSet)) := by
  intro units
  induction units with
  | nil =>
      intro e h
      simpa using h
  | cons u us ih =>
      intro e h
      cases u with
      | sps q =>
          obtain ⟨h1, h2⟩ := ih { e with spsSet := insertPs e.spsSet q } (by simpa using h)
          refine ⟨by simpa [stepFps] using h1, fun p => ?_⟩
          rw [List.foldl_cons]
          show p ∈ (us.foldl (stepFps fps) (stepFps fps e (.sps q))).ppsSet ↔ _
          simp only [stepFps] at h2 ⊢
          rw [h2 p]
          simp
      | pps q =>
          obtain ⟨h1, h2⟩ := ih { e with ppsSet := insertPs e.ppsSet q }
            (insertPs_nodup _ _ h)
          refine ⟨by simpa [stepFps] using h1, fun p => ?_⟩
          rw [List.foldl_cons]
          show p ∈ (us.foldl (stepFps fps) (stepFps fps e (.pps q))).ppsSet ↔ _
          simp only [stepFps] at h2 ⊢
          rw [h2 p, insertPs_mem]
          simp only [List.mem_cons, NalUnit.pps.injEq]
          tauto
      | idr q =>
          obtain ⟨h1, h2⟩ := ih (stepFps fps e (.idr q)) (by simpa [stepFps] using h)
          refine ⟨h1, fun p => ?_⟩
          rw [List.foldl_cons, h2 p]
          simp [stepFps]
      | nonIdr q =>
          obtain ⟨h1, h2⟩ := ih (stepFps fps e (.nonIdr q)) (by simpa [stepFps] using h)
          refine ⟨h1, fun p => ?_⟩
          rw [List.foldl_cons, h2 p]
          simp [stepFps]

theorem foldl_stepFps_samples_len (fps : Nat) :
    ∀ (units : List NalUnit) (e : EngineState),
      (units.foldl (stepFps fps) e).samples.length
        = e.samples.length + frameCount units := by
  intro units
  induction units with
  | nil => intro e; simp [frameCount]
  | cons u us ih =>
      intro e
      cases u <;>
        simp [List.foldl_cons, stepFps, ih, frameCount, List.filter_cons,
          NalUnit.isSlice] <;>
        omega

/-! ### Claim theorems -/

/-- C1: the write callback handed to the muxer reports a fatal error exactly
when the sink does not report the expected byte count — `Mp4Muxer::write`
returns nonzero iff the byte count from `write_data` differs from the
requested size; an `Err` from the sink's write is treated as zero bytes
written by `unwrap_or(0)` (a total function, not a panic), and an `Ok(n)` as
`n` bytes. -/
theorem c1_write_callback_error_iff (writeResult : Except IoError Nat) (size : Nat) :
    (Mp4Muxer.write writeResult size ≠ 0 ↔ Mp4Muxer.write_data writeResult ≠ size)
    ∧ (∀ e : IoError, Mp4Muxer.write_data (.error e) = 0)
    ∧ (∀ n : Nat, Mp4Muxer.write_data (.ok n) = n)
    ∧ (∀ e : IoError, Mp4Muxer.write (.error e) size = if size = 0 then 0 else 1) := by
  refine ⟨?_, fun e => rfl, fun n => rfl, fun e => ?_⟩
  · unfold Mp4Muxer.write
    split_ifs <;> simp_all
  · unfold Mp4Muxer.write Mp4Muxer.write_data
    by_cases h : size = 0 <;> simp [h, eq_comm]

/-- C2 counterexample: on a concrete session, a write method called after
`close()` performs its write — `write_comment` appends its entry to the
session buffer — instead of failing, and the crate's error type has no
`SessionClosed` variant at all. -/
theorem c2_counterexample :
    ((((Mp4Muxer.new_init () 1280 720 false "track").close).1.write_comment
        "after-close").strBuffer = ["track", "after-close"])
    ∧ ¬ ∃ e : Minimp4Error, Minimp4Error.name e = "SessionClosed" := by
  refine ⟨rfl, ?_⟩
  rintro ⟨e, h⟩
  revert h
  cases e <;> decide

/-- C2 (amended): `close()` takes `&self` and marks nothing — the session
state after `close` equals the session state before it — and the crate's
error type has no `SessionClosed` variant, so write methods called after
`close()` still perform their writes exactly as before close
(`write_comment` appends its entry to both the session buffer and the
engine's comment list). -/
theorem c2_after_close_writes_proceed {W : Type} (m : Mp4Muxer W) (c : String) :
    m.close.1 = m
    ∧ (m.close.1.write_comment c).strBuffer = m.strBuffer ++ [c]
    ∧ (m.close.1.write_comment c).engine.comments = m.engine.comments ++ [c]
    ∧ (∀ e : Minimp4Error, Minimp4Error.name e ≠ "SessionClosed") := by
  refine ⟨rfl, rfl, rfl, fun e => ?_⟩
  cases e <;> decide

/-- C4: `write_comment` appends a single comment entry per call — to the
engine's comment list and to the session's string buffer — and a sequence of
n calls leaves all n entries appended in order, none replaced. -/
theorem c4_write_comment_appends {W : Type} (m : Mp4Muxer W) (c : String)
    (cs : List String) :
    (m.write_comment c).engine.comments = m.engine.comments ++ [c]
    ∧ (m.write_comment c).strBuffer = m.strBuffer ++ [c]
    ∧ (cs.foldl Mp4Muxer.write_comment m).engine.comments = m.engine.comments ++ cs
    ∧ (cs.foldl Mp4Muxer.write_comment m).engine.comments.length
        = m.engine.comments.length + cs.length := by
  refine ⟨rfl, rfl, foldl_write_comment_comments cs m, ?_⟩
  simp [foldl_write_comment_comments cs m]

/-- C5: submitting a buffer through `write_video` is the same as submitting
it through `write_video_with_fps` at the implicit default frame rate 60 —
the full results (updated session, sink, and returned status) coincide. -/
theorem c5_write_video_default_fps {W : Type} (m : Mp4Muxer W)
    (data : List NalUnit) :
    m.write_video data = m.write_video_with_fps data 60
    ∧ (m.write_video data).2 = (m.write_video_with_fps data 60).2
    ∧ (m.write_video data).1.writer = (m.write_video_with_fps data 60).1.writer :=
  ⟨rfl, rfl, rfl⟩

/-- C6 counterexample: the crate's error type has no `InvalidDuration`
variant, so no frame submission can fail with `InvalidDuration`; concretely,
a `write_frame_with_duration` call with duration 0 returns `Ok` and appends
a sample of duration 0 instead of failing. -/
theorem c6_counterexample :
    (¬ ∃ e : Minimp4Error, Minimp4Error.name e = "InvalidDuration")
    ∧ ((Mp4Muxer.new_init () 1280 720 false "t").write_frame_with_duration
        [NalUnit.idr [0, 1, 2]] 0).2 = Except.ok ()
    ∧ (((Mp4Muxer.new_init () 1280 720 false "t").write_frame_with_duration
        [NalUnit.idr [0, 1, 2]] 0).1.engine.samples.map Sample.duration) = [0] := by
  refine ⟨?_, rfl, rfl⟩
  rintro ⟨e, h⟩
  revert h
  cases e <;> decide

/-- C6 (amended): explicit durations are forwarded verbatim with no
positivity check — `write_frame_with_duration` returns `Ok` and records
every slice of the submission as a sample carrying exactly the
caller-supplied duration, including zero — and the crate's error type has no
`InvalidDuration` variant, so a zero duration cannot be rejected with
`InvalidDuration`. -/
theorem c6_duration_forwarded {W : Type} (m : Mp4Muxer W) (data : List NalUnit)
    (d : Nat) :
    (m.write_frame_with_duration data d).2 = Except.ok ()
    ∧ (m.write_frame_with_duration data d).1.engine.samples
        = m.engine.samples ++ (data.filter NalUnit.isSlice).map
            (fun u => ⟨u.payload.length, d, u.isIdr⟩)
    ∧ (∀ e : Minimp4Error, Minimp4Error.name e ≠ "InvalidDuration") := by
  refine ⟨rfl, ?_, fun e => ?_⟩
  · exact foldl_stepDur_samples d data m.engine
  · cases e <;> decide

/-- C9: a video session closed with zero frames submitted closes
successfully (`close` and `finalize` are total: they return the sink and a
container, never an error), and the finalized container is structurally
valid with total duration 0. -/
theorem c9_zero_frames_close {W : Type} (sink : W) (width height : Int)
    (isHevc : Bool) (name : String) :
    containerValid (finalize (Mp4Muxer.new_init sink width height isHevc name).engine) = true
    ∧ (finalize (Mp4Muxer.new_init sink width height isHevc name).engine).duration = 0
    ∧ ((Mp4Muxer.new_init sink width height isHevc name).close).2 = sink :=
  ⟨rfl, rfl, rfl⟩

/-- C10: the status-code decoding is total and exact — for every `i32` value
`v`, `Minimp4ReturnCode::try_from(v)` succeeds iff `v` is one of the five
known status codes, yields `Ok` exactly when `v = MP4E_STATUS_OK`, and
otherwise yields the `Minimp4Error` variant whose discriminant is `v`; and
converting a return code into `Minimp4Result<()>` maps `Ok` to `Ok(())` and
`Err(e)` to `Err(e)`. -/
theorem c10_return_code_decoding (v : Int) :
    ((Minimp4ReturnCode.tryFrom v).isOk = true ↔
      (v = MP4E_STATUS_OK ∨ v = MP4E_STATUS_BAD_ARGUMENTS ∨
        v = MP4E_STATUS_NO_MEMORY ∨ v = MP4E_STATUS_FILE_WRITE_ERROR ∨
        v = MP4E_STATUS_ONLY_ONE_DSI_ALLOWED))
    ∧ (Minimp4ReturnCode.tryFrom v = .ok .Ok ↔ v = MP4E_STATUS_OK)
    ∧ (∀ e : Minimp4Error,
        Minimp4ReturnCode.tryFrom v = .ok (.Err e) ↔ v = e.discriminant)
    ∧ minimp4ResultOfReturnCode .Ok = .ok ()
    ∧ (∀ e : Minimp4Error, minimp4ResultOfReturnCode (.Err e) = .error e) := by
  refine ⟨?_, ?_, fun e => ?_, rfl, fun e => by cases e <;> rfl⟩
  · simp only [Minimp4ReturnCode.tryFrom, Minimp4Error.tryFrom, MP4E_STATUS_OK,
      MP4E_STATUS_BAD_ARGUMENTS, MP4E_STATUS_NO_MEMORY,
      MP4E_STATUS_FILE_WRITE_ERROR, MP4E_STATUS_ONLY_ONE_DSI_ALLOWED]
    split_ifs <;> simp_all [Except.map, Except.isOk, Except.toBool]
  · simp only [Minimp4ReturnCode.tryFrom, Minimp4Error.tryFrom, MP4E_STATUS_OK,
      MP4E_STATUS_BAD_ARGUMENTS, MP4E_STATUS_NO_MEMORY,
      MP4E_STATUS_FILE_WRITE_ERROR, MP4E_STATUS_ONLY_ONE_DSI_ALLOWED]
    split_ifs <;> simp_all [Except.map]
  · cases e <;>
      simp only [Minimp4ReturnCode.tryFrom, Minimp4Error.tryFrom,
        Minimp4Error.discriminant, MP4E_STATUS_OK, MP4E_STATUS_BAD_ARGUMENTS,
        MP4E_STATUS_NO_MEMORY, MP4E_STATUS_FILE_WRITE_ERROR,
        MP4E_STATUS_ONLY_ONE_DSI_ALLOWED] <;>
      split_ifs <;> simp_all [Except.map]

/-- C7: for every access-unit sequence submitted at a constant frame rate
`fps > 0`, the sum of the per-sample durations recorded in the resulting
track equals `frameCount * time_scale / fps` truncated — the fractional
remainder being accumulated and redistributed over subsequent frames — and
therefore differs from `round(frameCount * time_scale / fps)` by at most one
time-scale unit. -/
theorem c7_duration_sum (width height : Int) (isHevc : Bool) (name : String)
    (units : List NalUnit) (fps : Nat) (hfps : 0 < fps) :
    sumDurations ((Mp4Muxer.new_init () width height isHevc
        name).write_video_with_fps units fps).1.engine
      = frameCount units * time_scale / fps
    ∧ sumDurations ((Mp4Muxer.new_init () width height isHevc
        name).write_video_with_fps units fps).1.engine
      ≤ roundDiv (frameCount units * time_scale) fps
    ∧ roundDiv (frameCount units * time_scale) fps
      ≤ sumDurations ((Mp4Muxer.new_init () width height isHevc
          name).write_video_with_fps units fps).1.engine + 1 := by
  have h0 := foldl_stepFps_timing fps hfps units
    (mp4_h26x_write_init MP4E_open width height isHevc) 0
    (by simp [sumDurations, mp4_h26x_write_init, MP4E_open])
    (by simp [mp4_h26x_write_init, MP4E_open])
  have hb := roundDiv_bounds (frameCount units * time_scale) fps hfps
  have hsum : sumDurations ((Mp4Muxer.new_init () width height isHevc
        name).write_video_with_fps units fps).1.engine
      = frameCount units * time_scale / fps := by
    have := h0.1
    simpa [Mp4Muxer.write_video_with_fps, Mp4Muxer.new_init, write_mp4] using this
  refine ⟨hsum, ?_, ?_⟩
  · rw [hsum]
    exact hb.1
  · rw [hsum]
    exact hb.2

/-- C7 witness: the duration-sum theorem at a concrete three-frame sequence
with `fps = 25`. -/
theorem c7_duration_sum_witness :
    0 < 25
    ∧ (sumDurations ((Mp4Muxer.new_init () 1280 720 false
          "t").write_video_with_fps
          [NalUnit.idr [0], NalUnit.nonIdr [1], NalUnit.nonIdr [2]] 25).1.engine
        = frameCount [NalUnit.idr [0], NalUnit.nonIdr [1], NalUnit.nonIdr [2]]
            * time_scale / 25
      ∧ sumDurations ((Mp4Muxer.new_init () 1280 720 false
          "t").write_video_with_fps
          [NalUnit.idr [0], NalUnit.nonIdr [1], NalUnit.nonIdr [2]] 25).1.engine
        ≤ roundDiv (frameCount [NalUnit.idr [0], NalUnit.nonIdr [1],
            NalUnit.nonIdr [2]] * time_scale) 25
      ∧ roundDiv (frameCount [NalUnit.idr [0], NalUnit.nonIdr [1],
            NalUnit.nonIdr [2]] * time_scale) 25
        ≤ sumDurations ((Mp4Muxer.new_init () 1280 720 false
            "t").write_video_with_fps
            [NalUnit.idr [0], NalUnit.nonIdr [1], NalUnit.nonIdr [2]] 25).1.engine
            + 1) :=
  ⟨by decide,
    c7_duration_sum 1280 720 false "t"
      [NalUnit.idr [0], NalUnit.nonIdr [1], NalUnit.nonIdr [2]] 25 (by decide)⟩

/-- C8: parameter-set handling is idempotent — after submitting any NAL-unit
stream, each distinct SPS (and PPS) value that occurred in the stream is
stored exactly once in the engine's codec-configuration set, however many
times it reappeared across frames, and parameter-set units are not counted
as frames (the sample count equals the slice count). -/
theorem c8_parameter_set_idempotent (width height : Int) (isHevc : Bool)
    (name : String) (units : List NalUnit) (fps : Nat) :
    (∀ p, ((Mp4Muxer.new_init () width height isHevc
        name).write_video_with_fps units fps).1.engine.spsSet.count p
      = if NalUnit.sps p ∈ units then 1 else 0)
    ∧ (∀ p, ((Mp4Muxer.new_init () width height isHevc
        name).write_video_with_fps units fps).1.engine.ppsSet.count p
      = if NalUnit.pps p ∈ units then 1 else 0)
    ∧ ((Mp4Muxer.new_init () width height isHevc
        name).write_video_with_fps units fps).1.engine.samples.length
      = frameCount units := by
  have keyS := foldl_stepFps_sps fps units
    (mp4_h26x_write_init MP4E_open width height isHevc)
    (by simp [mp4_h26x_write_init, MP4E_open])
  have keyP := foldl_stepFps_pps fps units
    (mp4_h26x_write_init MP4E_open width height isHevc)
    (by simp [mp4_h26x_write_init, MP4E_open])
  have keyL := foldl_stepFps_samples_len fps units
    (mp4_h26x_write_init MP4E_open width height isHevc)
  refine ⟨fun p => ?_, fun p => ?_, ?_⟩
  · show (units.foldl (stepFps fps)
        (mp4_h26x_write_init MP4E_open width height isHevc)).spsSet.count p = _
    rw [count_nodup _ keyS.1 p]
    have hnil : (mp4_h26x_write_init MP4E_open width height isHevc).spsSet = [] := rfl
    simp [keyS.2 p, hnil]
  · show (units.foldl (stepFps fps)
        (mp4_h26x_write_init MP4E_open width height isHevc)).ppsSet.count p = _
    rw [count_nodup _ keyP.1 p]
    have hnil : (mp4_h26x_write_init MP4E_open width height isHevc).ppsSet = [] := rfl
    simp [keyP.2 p, hnil]
  · show (units.foldl (stepFps fps)
        (mp4_h26x_write_init MP4E_open width height isHevc)).samples.length = _
    simpa [mp4_h26x_write_init, MP4E_open] using keyL

end Minimp4
